import Mathlib

/-!
Verification development for the StrengthTracker repository.

The core subsystem is a minimal React-like runtime (file `myreact.js`,
provided as `src/unnamed/part_000`): `useState`, `createElement`,
`appendElement` and `render`.  This file gives a shallow embedding of
that runtime and of the persistence loaders `loadEntries`/`loadPlan`
from `app.js`, and proves the specification claims about them.

Modelling conventions:
* JavaScript values stored in hook slots are modelled by `JSVal`
  (numbers as integers, which is the domain the claims exercise).
* The hook-state array `hookStates` is a `List JSVal`; a JS read out of
  bounds yields `undefined`, modelled by `getIdx` defaulting to
  `JSVal.undef`, and a JS write beyond the length extends the array,
  modelled by `setIdx` padding with `JSVal.undef`.
* Component functions may interact with the hook store only through
  `useState` (in the source, `hookStates` is private to the IIFE), so a
  component invocation is modelled as a `HookProg` value: a syntactic
  program of `useState` calls ending in a returned child.  The source
  applies the component function to its props and children at mount
  time; here the applied program is stored in the node and run at mount
  time, which consumes hook slots at exactly the same point.
* DOM side effects (`createTextNode`, `createElement`, `setAttribute`,
  `addEventListener`, style writes, property writes, `appendChild`)
  are modelled by building a `Dom` tree value.  Event-handler function
  values are opaque and carry a numeric identity.
* Recursion in `appendElement` is not structural (a component may
  return an arbitrary tree), so mounting takes a fuel argument and
  returns `none` on fuel exhaustion or on a JS fault (e.g. mounting
  `null` directly, whose `.type` access throws).
-/

/-- A JavaScript value as stored in hook slots and text positions. -/
inductive JSVal where
  | undef
  | null
  | bool (b : Bool)
  | num (n : Int)
  | str (s : String)
deriving DecidableEq, Repr

/-- Array read `a[i]`: out-of-bounds reads yield `undefined`. -/
def getIdx (l : List JSVal) (i : Nat) : JSVal :=
  (l.get? i).getD JSVal.undef

/-- Array write `a[i] = v`: writing past the end extends the array,
with the intermediate positions reading as `undefined`. -/
def setIdx : List JSVal → Nat → JSVal → List JSVal
  | [], 0, v => [v]
  | [], n + 1, v => JSVal.undef :: setIdx [] n v
  | _ :: xs, 0, v => v :: xs
  | x :: xs, n + 1, v => x :: setIdx xs n v

/-- The runtime's hook bookkeeping: the `hookStates` array and the
shared `hookIndex` counter. -/
structure HookSt where
  hookStates : List JSVal
  hookIndex : Nat
deriving DecidableEq, Repr

/-- `useState(initialValue)` from `myreact.js`: captures
`stateIndex = hookIndex`, seeds the slot with `initialValue` when the
stored value is (strictly equal to) `undefined`, reads the value,
increments `hookIndex`.  Returns the value, the captured slot index
(the data the returned setter closure captures), and the new state. -/
def useState (initialValue : JSVal) (st : HookSt) : JSVal × Nat × HookSt :=
  let stateIndex := st.hookIndex
  let states :=
    if getIdx st.hookStates stateIndex = JSVal.undef then
      setIdx st.hookStates stateIndex initialValue
    else st.hookStates
  (getIdx states stateIndex, stateIndex, ⟨states, stateIndex + 1⟩)

/-- The argument passed to a setter: `typeof newValue === 'function'`
distinguishes an updater function from a literal value. -/
inductive SetArg where
  | literal (v : JSVal)
  | updater (f : JSVal → JSVal)

/-- The state-array update performed by the `setState` closure for the
captured `stateIndex`: a function argument is applied to the stored
value at that index, any other argument is stored as is. -/
def setStateRaw (stateIndex : Nat) (arg : SetArg) (states : List JSVal) : List JSVal :=
  match arg with
  | SetArg.literal v => setIdx states stateIndex v
  | SetArg.updater f => setIdx states stateIndex (f (getIdx states stateIndex))

/-- A component body as a program over the hook store: a sequence of
`useState` calls (each continuation receives the returned value and the
captured slot index) ending in a returned value of type `α`. -/
inductive HookProg (α : Type) where
  | ret (a : α)
  | state (init : JSVal) (k : JSVal → Nat → HookProg α)

/-- A prop value: the JS value types that occur as prop values.  A
`style` value is a plain object of CSS entries (string-valued, the
shape the application uses); a `handler` is a function value, opaque
except for an identity. -/
inductive PropVal where
  | str (s : String)
  | num (n : Int)
  | bool (b : Bool)
  | null
  | undef
  | style (entries : List (String × String))
  | handler (id : Nat)
deriving DecidableEq, Repr

mutual
/-- A child position in a virtual tree: a virtual node, a primitive,
`null`/`false`/`undefined` (dropped by `createElement`), or a nested
array (flattened by `createElement`). -/
inductive Child where
  | str (s : String)
  | num (n : Int)
  | null
  | undef
  | bool (b : Bool)
  | arr (cs : List Child)
  | node (vn : VNode)

/-- A virtual DOM element as returned by `createElement`:
`{type, props, children}`. -/
inductive VNode where
  | mk (type : NodeType) (props : List (String × PropVal)) (children : List Child)

/-- The `type` field: a native tag name, or a component function.  The
source invokes the component function on `(props ∪ {children})` at
mount time; here the node stores the resulting hook program, which is
run at mount time. -/
inductive NodeType where
  | tag (t : String)
  | comp (prog : HookProg Child)
end

/-- Projection `node.type`. -/
def VNode.type : VNode → NodeType
  | VNode.mk t _ _ => t

/-- Projection `node.props`. -/
def VNode.props : VNode → List (String × PropVal)
  | VNode.mk _ p _ => p

/-- Projection `node.children`. -/
def VNode.children : VNode → List Child
  | VNode.mk _ _ c => c

/-- A materialized DOM node: a text node, or an element with the
observable effects of prop application (attributes set via
`setAttribute`, direct property assignments, inline style writes,
registered event listeners) and its children. -/
inductive Dom where
  | text (s : String)
  | elem (tag : String) (attrs : List (String × String))
      (propsSet : List (String × PropVal))
      (styles : List (String × String))
      (listeners : List (String × Nat))
      (children : List Dom)

/-- Running a component body: each `state` step performs one `useState`
call against the shared hook state, exactly as the source component
would during its invocation inside `appendElement`. -/
def runHook : HookProg Child → HookSt → Child × HookSt
  | HookProg.ret a, st => (a, st)
  | HookProg.state init k, st =>
    let r := useState init st
    runHook (k r.1 r.2.1) r.2.2

/-- `child === null || child === false || child === undefined`: the
children `createElement` drops. -/
def removable : Child → Bool
  | Child.null => true
  | Child.undef => true
  | Child.bool false => true
  | _ => false

mutual
/-- The `addChild` closure of `createElement`, accumulator-style:
arrays recurse, removable entries are dropped, everything else is
pushed onto `flatChildren`. -/
def addChild : List Child → Child → List Child
  | acc, Child.arr cs => addChildList acc cs
  | acc, c => if removable c then acc else acc ++ [c]

/-- `children.forEach(addChild)`. -/
def addChildList : List Child → List Child → List Child
  | acc, [] => acc
  | acc, c :: cs => addChildList (addChild acc c) cs
end

/-- The `props` argument as passed at a `createElement` call site: an
object, or one of the falsy values that `props || {}` replaces by the
empty object.  (A truthy non-object props argument is outside the
shapes the specification claims quantify over and is not modelled.) -/
inductive PropsArg where
  | obj (ps : List (String × PropVal))
  | null
  | undef
  | fls
  | zero
  | emptyStr
deriving Repr

/-- `props || {}`. -/
def propsOr : PropsArg → List (String × PropVal)
  | PropsArg.obj ps => ps
  | _ => []

/-- `createElement(type, props, ...children)` from `myreact.js`. -/
def createElement (type : NodeType) (props : PropsArg) (children : List Child) : VNode :=
  VNode.mk type (propsOr props) (addChildList [] children)

/-- The accumulated observable effects of applying props to a freshly
created DOM element. -/
structure ElemAcc where
  attrs : List (String × String)
  propsSet : List (String × PropVal)
  styles : List (String × String)
  listeners : List (String × Nat)
deriving DecidableEq, Repr

/-- A freshly created element: nothing applied yet. -/
def emptyAcc : ElemAcc := ⟨[], [], [], []⟩

/-- `String(value)` as used by `setAttribute` coercion.  (The exact
rendering of function and object values is abbreviated; the claims
only coerce strings.) -/
def propToString : PropVal → String
  | PropVal.str s => s
  | PropVal.num n => toString n
  | PropVal.bool b => cond b "true" "false"
  | PropVal.null => "null"
  | PropVal.undef => "undefined"
  | PropVal.style _ => "[object Object]"
  | PropVal.handler _ => "function"

/-- `name.startsWith('on')`, computed on the character list (prop
names are ASCII, where this coincides with the JS code-unit view). -/
def strStartsWith (s pre : String) : Bool :=
  pre.data.isPrefixOf s.data

/-- `name.slice(2)` on the character list. -/
def strDrop (s : String) (n : Nat) : String :=
  ⟨s.data.drop n⟩

/-- `name.toLowerCase()` on the character list. -/
def strToLower (s : String) : String :=
  ⟨s.data.map Char.toLower⟩

/-- `typeof value === 'function'`. -/
def isFunctionVal : PropVal → Bool
  | PropVal.handler _ => true
  | _ => false

/-- `typeof value === 'object'` (true for `null` and plain objects). -/
def isObjectVal : PropVal → Bool
  | PropVal.null => true
  | PropVal.style _ => true
  | _ => false

/-- One iteration of the prop-application loop in `appendElement`,
reproducing its if/else chain.  `dh tag name` models `name in dom`:
whether the host element exposes a same-named settable field.  The
result is `none` where the source would throw
(`Object.entries(null)` for a `style` prop holding `null`). -/
def applyProp (dh : String → String → Bool) (t : String) (acc : ElemAcc)
    (p : String × PropVal) : Option ElemAcc :=
  let name := p.1
  let value := p.2
  if strStartsWith name "on" && isFunctionVal value then
    match value with
    | PropVal.handler h =>
      some { acc with listeners := acc.listeners ++ [(strToLower (strDrop name 2), h)] }
    | _ => none
  else if name = "className" then
    some { acc with attrs := acc.attrs ++ [("class", propToString value)] }
  else if name = "style" && isObjectVal value then
    match value with
    | PropVal.style entries => some { acc with styles := acc.styles ++ entries }
    | _ => none
  else if name ≠ "children" then
    if value = PropVal.null ∨ value = PropVal.undef then some acc
    else if dh t name then some { acc with propsSet := acc.propsSet ++ [(name, value)] }
    else some { acc with attrs := acc.attrs ++ [(name, propToString value)] }
  else some acc

/-- `Object.entries(node.props).forEach(...)` over an accumulator. -/
def applyPropsFrom (dh : String → String → Bool) (t : String) :
    List (String × PropVal) → ElemAcc → Option ElemAcc
  | [], acc => some acc
  | p :: ps, acc =>
    match applyProp dh t acc p with
    | none => none
    | some acc' => applyPropsFrom dh t ps acc'

/-- Prop application onto a freshly created element. -/
def applyProps (dh : String → String → Bool) (t : String)
    (ps : List (String × PropVal)) : Option ElemAcc :=
  applyPropsFrom dh t ps emptyAcc

mutual
/-- `appendElement(node, container)` from `myreact.js`, with fuel.
Returns the list of DOM nodes appended to the container and the hook
state after the traversal.  `none` models fuel exhaustion or a thrown
fault; mounting `null`/`undefined`/booleans directly is outside the
defined node shapes (the source would dereference `.type` on a
non-object) and is mapped to `none`. -/
def mountChild (dh : String → String → Bool) :
    Nat → Child → HookSt → Option (List Dom × HookSt)
  | 0, _, _ => none
  | _ + 1, Child.str s, st => some ([Dom.text s], st)
  | _ + 1, Child.num n, st => some ([Dom.text (toString n)], st)
  | _ + 1, Child.null, _ => none
  | _ + 1, Child.undef, _ => none
  | _ + 1, Child.bool _, _ => none
  | fuel + 1, Child.arr cs, st => mountList dh fuel cs st
  | fuel + 1, Child.node (VNode.mk (NodeType.comp prog) _ _), st =>
    let r := runHook prog st
    mountChild dh fuel r.1 r.2
  | fuel + 1, Child.node (VNode.mk (NodeType.tag t) props children), st =>
    match applyProps dh t props with
    | none => none
    | some acc =>
      match mountList dh fuel children st with
      | none => none
      | some (ds, st') =>
        some ([Dom.elem t acc.attrs acc.propsSet acc.styles acc.listeners ds], st')

/-- Mounting a list of children in order into one container, threading
the hook state left to right. -/
def mountList (dh : String → String → Bool) :
    Nat → List Child → HookSt → Option (List Dom × HookSt)
  | 0, _, _ => none
  | _ + 1, [], st => some ([], st)
  | fuel + 1, c :: cs, st =>
    match mountChild dh fuel c st with
    | none => none
    | some (d, st') =>
      match mountList dh fuel cs st' with
      | none => none
      | some (ds, st'') => some (d ++ ds, st'')
end

/-- The process-wide runtime state: the hook store, the retained
render session (`currentRootElement`, initially `null`), and the
children of the retained container. -/
structure World where
  hookStates : List JSVal
  hookIndex : Nat
  root : Option Child
  containerDom : List Dom

/-- `render(element, container)` from `myreact.js`: reset `hookIndex`
to `0`, retain the session, clear the container's existing children,
mount `element` fresh.  `none` models a fault propagating out of
materialization. -/
def render (dh : String → String → Bool) (fuel : Nat) (element : Child)
    (w : World) : Option World :=
  match mountChild dh fuel element ⟨w.hookStates, 0⟩ with
  | none => none
  | some (d, st) => some ⟨st.hookStates, st.hookIndex, some element, d⟩

/-- Invoking a setter closure that captured `stateIndex`: update the
slot (applying an updater function to the stored value), reset the
hook index, and synchronously re-render the retained session.  With no
retained root (`currentRootElement === null`) the re-render faults. -/
def setStateW (dh : String → String → Bool) (fuel : Nat) (stateIndex : Nat)
    (arg : SetArg) (w : World) : Option World :=
  let states := setStateRaw stateIndex arg w.hookStates
  match w.root with
  | none => none
  | some el => render dh fuel el ⟨states, 0, w.root, w.containerDom⟩

/-- `k` sequential setter invocations, each one's re-render completing
before the next starts; records the container contents after each
invocation's re-render. -/
def clickTrace (dh : String → String → Bool) (fuel : Nat) (stateIndex : Nat)
    (arg : SetArg) : Nat → World → Option (List (List Dom) × World)
  | 0, w => some ([], w)
  | k + 1, w =>
    match setStateW dh fuel stateIndex arg w with
    | none => none
    | some w' =>
      match clickTrace dh fuel stateIndex arg k w' with
      | none => none
      | some (tr, wf) => some (w'.containerDom :: tr, wf)

/-- `String(value)` for a hook-slot value rendered into a text child. -/
def jsValToString : JSVal → String
  | JSVal.undef => "undefined"
  | JSVal.null => "null"
  | JSVal.bool b => cond b "true" "false"
  | JSVal.num n => toString n
  | JSVal.str s => s

/-- The updater `prev => prev + 1` on the numeric domain the claims
exercise (a non-numeric previous value is never reached there). -/
def jsInc : JSVal → JSVal
  | JSVal.num n => JSVal.num (n + 1)
  | v => v

/-- A component that calls the state hook exactly once with initial
value `0` and renders a hook-free body from the returned value. -/
def counterProg (body : JSVal → Child) : HookProg Child :=
  HookProg.state (JSVal.num 0) (fun v _ => HookProg.ret (body v))

/-- The virtual node for such a component. -/
def counterNode (body : JSVal → Child) : Child :=
  Child.node (VNode.mk (NodeType.comp (counterProg body)) [] [])

/-- The runtime state after a render of the counter component whose
slot holds `n`: one hook slot, hook index left at `1`, session
retained, container showing the body of `n`. -/
def counterWorld (body : JSVal → Child) (bodyDom : JSVal → List Dom) (n : Int) : World :=
  ⟨[JSVal.num n], 1, some (counterNode body), bodyDom (JSVal.num n)⟩

/-- A logged workout entry (`{date, exercise, weight, reps, ...}`). -/
structure Entry where
  date : String
  exercise : String
  weight : Int
  reps : Int
deriving DecidableEq, Repr

/-- A weekly plan record
(`{days, startDate, endDate, schedule}` in `app.js`). -/
structure Plan where
  days : List (String × List String)
  startDate : String
  endDate : String
  schedule : List (String × List String)
deriving DecidableEq, Repr

/-- The entry sort comparator of `loadEntries`: by date value
(`new Date(a.date) - new Date(b.date)`, the date valuation being a
host function modelled as a parameter), ties broken by
`exercise.localeCompare`. -/
def entryLE (dateVal : String → Int) (a b : Entry) : Bool :=
  if dateVal a.date ≠ dateVal b.date then decide (dateVal a.date ≤ dateVal b.date)
  else decide (a.exercise ≤ b.exercise)

/-- `entries.sort(...)` in `loadEntries`. -/
def sortEntries (dateVal : String → Int) (entries : List Entry) : List Entry :=
  entries.mergeSort (entryLE dateVal)

/-- `loadEntries()` from `app.js`: read the stored payload (`none`
models an absent/falsy record), parse and shape-check it (JSON.parse
is a host function, modelled as a parameter returning `Except`; a
parse or subsequent processing fault is its `error` case), sort, and
return.  Any fault inside the `try` block is caught, logged, and falls
through to `return []`. -/
def loadEntries (stored : Option String)
    (parseEntries : String → Except Unit (List Entry))
    (dateVal : String → Int) : List Entry :=
  match stored with
  | none => []
  | some data =>
    match parseEntries data with
    | Except.error _ => []
    | Except.ok entries => sortEntries dateVal entries

/-- `loadPlan()` from `app.js`: read the stored payload, parse it; a
parse fault is caught, logged, and falls through to `return null`. -/
def loadPlan (stored : Option String)
    (parsePlan : String → Except Unit Plan) : Option Plan :=
  match stored with
  | none => none
  | some data =>
    match parsePlan data with
    | Except.error _ => none
    | Except.ok p => some p

/-- Spec-side definition, following the claim's words: the depth-first,
order-preserving flattening of the argument list with every
null/false/undefined entry removed.  To be compared with the source's
accumulator-style `addChildList`. -/
def specFlatten : List Child → List Child
  | [] => []
  | Child.arr cs :: rest => specFlatten cs ++ specFlatten rest
  | c :: rest => if removable c then specFlatten rest else c :: specFlatten rest

/-- An entry of a flattened child list: not an array, not removable. -/
def flatEntry : Child → Bool
  | Child.arr _ => false
  | c => !(removable c)


/-- `props` argument is an object (truthy): `props || {}` keeps it. -/
def PropsArg.isObj : PropsArg → Bool
  | PropsArg.obj _ => true
  | _ => false

/-- The prop record of the prop-application test property:
`{className: "x", style: {color: "red"}, onClick: fn, disabled: undefined}`
with `fn` the opaque handler `f`. -/
def c4props (f : Nat) : List (String × PropVal) :=
  [("className", PropVal.str "x"),
   ("style", PropVal.style [("color", "red")]),
   ("onClick", PropVal.handler f),
   ("disabled", PropVal.undef)]

/-- A host environment exposing no settable element fields (the
`name in dom` test; irrelevant to the concrete scenarios used). -/
def dh0 : String → String → Bool := fun _ _ => false

/-- A concrete hook-free counter body: a button displaying the value. -/
def buttonBody (v : JSVal) : Child :=
  Child.node (VNode.mk (NodeType.tag "button") [] [Child.str (jsValToString v)])

/-- The materialization of `buttonBody`. -/
def buttonDom (v : JSVal) : List Dom :=
  [Dom.elem "button" [] [] [] [] [Dom.text (jsValToString v)]]

/-- The expected per-click container contents for the counter
scenario: click `j` (counting from 1) shows the body of `n + j`. -/
def counterTraceList (bodyDom : JSVal → List Dom) (n : Int) : Nat → List (List Dom)
  | 0 => []
  | K + 1 => bodyDom (JSVal.num (n + 1)) :: counterTraceList bodyDom (n + 1) K

theorem getIdx_nil (i : Nat) : getIdx [] i = JSVal.undef := by
  cases i <;> rfl

theorem setIdx_length (l : List JSVal) (i : Nat) (v : JSVal) :
    (setIdx l i v).length = max l.length (i + 1) := by
  induction l generalizing i with
  | nil =>
    induction i with
    | zero => simp [setIdx]
    | succ n ih => simp [setIdx, ih]
  | cons x xs ih =>
    cases i with
    | zero => simp [setIdx]
    | succ n =>
      simp [setIdx, ih]
      omega

theorem getIdx_setIdx_self (l : List JSVal) (i : Nat) (v : JSVal) :
    getIdx (setIdx l i v) i = v := by
  induction l generalizing i with
  | nil =>
    induction i with
    | zero => rfl
    | succ n ih => simpa [setIdx, getIdx] using ih
  | cons x xs ih =>
    cases i with
    | zero => rfl
    | succ n => simpa [setIdx, getIdx] using ih n

theorem getIdx_setIdx_ne (l : List JSVal) (i j : Nat) (v : JSVal) (h : j ≠ i) :
    getIdx (setIdx l i v) j = getIdx l j := by
  induction l generalizing i j with
  | nil =>
    induction i generalizing j with
    | zero => cases j with
      | zero => exact absurd rfl h
      | succ m => simp [setIdx, getIdx]
    | succ n ih =>
      cases j with
      | zero => rfl
      | succ m => simpa [setIdx, getIdx] using ih m (by omega)
  | cons x xs ih =>
    cases i with
    | zero => cases j with
      | zero => exact absurd rfl h
      | succ m => rfl
    | succ n =>
      cases j with
      | zero => rfl
      | succ m => simpa [setIdx, getIdx] using ih n m (by omega)

theorem setIdx_self (l : List JSVal) (i : Nat) (v : JSVal)
    (hlt : i < l.length) (hv : getIdx l i = v) : setIdx l i v = l := by
  induction l generalizing i with
  | nil => simp at hlt
  | cons x xs ih =>
    cases i with
    | zero =>
      simp [getIdx] at hv
      simp [setIdx, hv]
    | succ n =>
      have : setIdx xs n v = xs := ih n (by simpa using hlt) (by simpa [getIdx] using hv)
      simp [setIdx, this]

theorem useState_of_undef (init : JSVal) (st : HookSt)
    (h : getIdx st.hookStates st.hookIndex = JSVal.undef) :
    useState init st =
      (init, st.hookIndex, ⟨setIdx st.hookStates st.hookIndex init, st.hookIndex + 1⟩) := by
  simp [useState, h, getIdx_setIdx_self]

theorem useState_of_stored (init : JSVal) (st : HookSt)
    (h : getIdx st.hookStates st.hookIndex ≠ JSVal.undef) :
    useState init st =
      (getIdx st.hookStates st.hookIndex, st.hookIndex, ⟨st.hookStates, st.hookIndex + 1⟩) := by
  simp [useState, h]

theorem runHook_mono (p : HookProg Child) :
    ∀ st : HookSt, st.hookIndex ≤ (runHook p st).2.hookIndex ∧
      st.hookStates.length ≤ (runHook p st).2.hookStates.length ∧
      ∀ j, j < st.hookIndex →
        getIdx (runHook p st).2.hookStates j = getIdx st.hookStates j := by
  induction p with
  | ret a => intro st; simp [runHook]
  | state init k ih =>
    intro st
    by_cases h : getIdx st.hookStates st.hookIndex = JSVal.undef
    · have e : runHook (HookProg.state init k) st =
          runHook (k init st.hookIndex)
            ⟨setIdx st.hookStates st.hookIndex init, st.hookIndex + 1⟩ := by
        simp [runHook, useState_of_undef init st h]
      rw [e]
      obtain ⟨h1, h2, h3⟩ := ih init st.hookIndex
        ⟨setIdx st.hookStates st.hookIndex init, st.hookIndex + 1⟩
      simp only at h1 h2 h3
      refine ⟨by omega, ?_, ?_⟩
      · calc st.hookStates.length ≤ (setIdx st.hookStates st.hookIndex init).length := by
              rw [setIdx_length]; omega
          _ ≤ _ := h2
      · intro j hj
        rw [h3 j (by omega), getIdx_setIdx_ne _ _ _ _ (by omega)]
    · have e : runHook (HookProg.state init k) st =
          runHook (k (getIdx st.hookStates st.hookIndex) st.hookIndex)
            ⟨st.hookStates, st.hookIndex + 1⟩ := by
        simp [runHook, useState_of_stored init st h]
      rw [e]
      obtain ⟨h1, h2, h3⟩ := ih (getIdx st.hookStates st.hookIndex) st.hookIndex
        ⟨st.hookStates, st.hookIndex + 1⟩
      simp only at h1 h2 h3
      exact ⟨by omega, h2, fun j hj => h3 j (by omega)⟩

theorem runHook_pres (p : HookProg Child) :
    ∀ st : HookSt, ∀ j, getIdx st.hookStates j ≠ JSVal.undef →
      getIdx (runHook p st).2.hookStates j = getIdx st.hookStates j := by
  induction p with
  | ret a => intro st j _; simp [runHook]
  | state init k ih =>
    intro st j hj
    by_cases h : getIdx st.hookStates st.hookIndex = JSVal.undef
    · have e : runHook (HookProg.state init k) st =
          runHook (k init st.hookIndex)
            ⟨setIdx st.hookStates st.hookIndex init, st.hookIndex + 1⟩ := by
        simp [runHook, useState_of_undef init st h]
      rw [e]
      have hji : j ≠ st.hookIndex := fun hc => hj (hc ▸ h)
      have hset : getIdx (setIdx st.hookStates st.hookIndex init) j =
          getIdx st.hookStates j := getIdx_setIdx_ne _ _ _ _ hji
      have := ih init st.hookIndex
        ⟨setIdx st.hookStates st.hookIndex init, st.hookIndex + 1⟩ j (by
          simpa [hset] using hj)
      simpa [hset] using this
    · have e : runHook (HookProg.state init k) st =
          runHook (k (getIdx st.hookStates st.hookIndex) st.hookIndex)
            ⟨st.hookStates, st.hookIndex + 1⟩ := by
        simp [runHook, useState_of_stored init st h]
      rw [e]
      exact ih (getIdx st.hookStates st.hookIndex) st.hookIndex
        ⟨st.hookStates, st.hookIndex + 1⟩ j hj

theorem mount_mono (dh : String → String → Bool) : ∀ fuel : Nat,
    (∀ c st r, mountChild dh fuel c st = some r →
      st.hookIndex ≤ r.2.hookIndex ∧
      st.hookStates.length ≤ r.2.hookStates.length ∧
      ∀ j, j < st.hookIndex → getIdx r.2.hookStates j = getIdx st.hookStates j) ∧
    (∀ cs st r, mountList dh fuel cs st = some r →
      st.hookIndex ≤ r.2.hookIndex ∧
      st.hookStates.length ≤ r.2.hookStates.length ∧
      ∀ j, j < st.hookIndex → getIdx r.2.hookStates j = getIdx st.hookStates j) := by
  intro fuel
  induction fuel with
  | zero => exact ⟨fun c st r h => by simp [mountChild] at h,
      fun cs st r h => by simp [mountList] at h⟩
  | succ fuel ih =>
    obtain ⟨ihc, ihl⟩ := ih
    constructor
    · intro c st r h
      match c with
      | Child.str s =>
        simp [mountChild] at h
        simp [← h]
      | Child.num n =>
        simp [mountChild] at h
        simp [← h]
      | Child.null => simp [mountChild] at h
      | Child.undef => simp [mountChild] at h
      | Child.bool b => simp [mountChild] at h
      | Child.arr cs =>
        simp only [mountChild] at h
        exact ihl cs st r h
      | Child.node (VNode.mk (NodeType.comp prog) props children) =>
        simp only [mountChild] at h
        obtain ⟨m1, m2, m3⟩ := runHook_mono prog st
        obtain ⟨c1, c2, c3⟩ := ihc _ _ _ h
        refine ⟨by omega, by omega, ?_⟩
        intro j hj
        rw [c3 j (by omega), m3 j hj]
      | Child.node (VNode.mk (NodeType.tag t) props children) =>
        simp only [mountChild] at h
        cases hap : applyProps dh t props with
        | none => rw [hap] at h; simp at h
        | some acc =>
          rw [hap] at h
          simp only at h
          cases hml : mountList dh fuel children st with
          | none => rw [hml] at h; simp at h
          | some r' =>
            rw [hml] at h
            simp only at h
            obtain ⟨c1, c2, c3⟩ := ihl _ _ _ hml
            obtain ⟨rfl⟩ : r = ([Dom.elem t acc.attrs acc.propsSet acc.styles acc.listeners r'.1], r'.2) := by
              cases r' with
              | mk ds st' => simpa using h.symm
            exact ⟨c1, c2, c3⟩
    · intro cs st r h
      match cs with
      | [] =>
        simp [mountList] at h
        simp [← h]
      | c :: cs =>
        simp only [mountList] at h
        cases hmc : mountChild dh fuel c st with
        | none => rw [hmc] at h; simp at h
        | some r1 =>
          rw [hmc] at h
          simp only at h
          cases hml : mountList dh fuel cs r1.2 with
          | none =>
            cases r1 with
            | mk d st' => rw [hml] at h; simp at h
          | some r2 =>
            cases r1 with
            | mk d st1 =>
              cases r2 with
              | mk ds st2 =>
                rw [hml] at h
                simp only at h
                obtain ⟨a1, a2, a3⟩ := ihc _ _ _ hmc
                obtain ⟨b1, b2, b3⟩ := ihl _ _ _ hml
                simp only [Prod.snd] at a1 a2 a3 b1 b2 b3
                obtain ⟨rfl⟩ : r = (d ++ ds, st2) := by simpa using h.symm
                refine ⟨by simp only [Prod.snd]; omega, by simp only [Prod.snd]; omega, ?_⟩
                intro j hj
                simp only [Prod.snd] at hj ⊢
                rw [b3 j (by omega), a3 j hj]

theorem mount_pres (dh : String → String → Bool) : ∀ fuel : Nat,
    (∀ c st r, mountChild dh fuel c st = some r →
      ∀ j, getIdx st.hookStates j ≠ JSVal.undef →
        getIdx r.2.hookStates j = getIdx st.hookStates j) ∧
    (∀ cs st r, mountList dh fuel cs st = some r →
      ∀ j, getIdx st.hookStates j ≠ JSVal.undef →
        getIdx r.2.hookStates j = getIdx st.hookStates j) := by
  intro fuel
  induction fuel with
  | zero => exact ⟨fun c st r h => by simp [mountChild] at h,
      fun cs st r h => by simp [mountList] at h⟩
  | succ fuel ih =>
    obtain ⟨ihc, ihl⟩ := ih
    constructor
    · intro c st r h j hj
      match c with
      | Child.str s => simp [mountChild] at h; simp [← h]
      | Child.num n => simp [mountChild] at h; simp [← h]
      | Child.null => simp [mountChild] at h
      | Child.undef => simp [mountChild] at h
      | Child.bool b => simp [mountChild] at h
      | Child.arr cs =>
        simp only [mountChild] at h
        exact ihl cs st r h j hj
      | Child.node (VNode.mk (NodeType.comp prog) props children) =>
        simp only [mountChild] at h
        have hp := runHook_pres prog st j hj
        have := ihc _ _ _ h j (by rw [hp]; exact hj)
        rw [this, hp]
      | Child.node (VNode.mk (NodeType.tag t) props children) =>
        simp only [mountChild] at h
        cases hap : applyProps dh t props with
        | none => rw [hap] at h; simp at h
        | some acc =>
          rw [hap] at h
          simp only at h
          cases hml : mountList dh fuel children st with
          | none => rw [hml] at h; simp at h
          | some r' =>
            rw [hml] at h
            simp only at h
            have := ihl _ _ _ hml j hj
            cases r' with
            | mk ds st' =>
              obtain ⟨rfl⟩ : r = ([Dom.elem t acc.attrs acc.propsSet acc.styles acc.listeners ds], st') := by
                simpa using h.symm
              simpa using this
    · intro cs st r h j hj
      match cs with
      | [] => simp [mountList] at h; simp [← h]
      | c :: cs =>
        simp only [mountList] at h
        cases hmc : mountChild dh fuel c st with
        | none => rw [hmc] at h; simp at h
        | some r1 =>
          rw [hmc] at h
          simp only at h
          cases r1 with
          | mk d st1 =>
            cases hml : mountList dh fuel cs st1 with
            | none => rw [hml] at h; simp at h
            | some r2 =>
              cases r2 with
              | mk ds st2 =>
                rw [hml] at h
                simp only at h
                have ha := ihc _ _ _ hmc j hj
                simp only [Prod.snd] at ha
                have hb := ihl _ _ _ hml j (by rw [ha]; exact hj)
                simp only [Prod.snd] at hb
                obtain ⟨rfl⟩ : r = (d ++ ds, st2) := by simpa using h.symm
                simp only [Prod.snd]
                rw [hb, ha]

theorem runHook_replay (p : HookProg Child) :
    ∀ (st : HookSt) (a : Child) (st' : HookSt), runHook p st = (a, st') →
    ∀ t : List JSVal,
      (∀ j, st.hookIndex ≤ j → j < st'.hookIndex →
        getIdx t j = getIdx st'.hookStates j) →
      st'.hookStates.length ≤ t.length →
      runHook p ⟨t, st.hookIndex⟩ = (a, ⟨t, st'.hookIndex⟩) := by
  induction p with
  | ret a0 =>
    intro st a st' hrun t hag hlen
    simp [runHook] at hrun ⊢
    obtain ⟨rfl, rfl⟩ := hrun
    exact ⟨rfl, rfl⟩
  | state init k ih =>
    intro st a st' hrun t hag hlen
    by_cases h : getIdx st.hookStates st.hookIndex = JSVal.undef
    · -- first pass seeded the slot with `init`
      have e : runHook (HookProg.state init k) st =
          runHook (k init st.hookIndex)
            ⟨setIdx st.hookStates st.hookIndex init, st.hookIndex + 1⟩ := by
        simp [runHook, useState_of_undef init st h]
      rw [e] at hrun
      obtain ⟨m1, m2, m3⟩ := runHook_mono (k init st.hookIndex)
        ⟨setIdx st.hookStates st.hookIndex init, st.hookIndex + 1⟩
      rw [hrun] at m1 m2 m3
      simp only at m1 m2 m3
      have hslot : getIdx st'.hookStates st.hookIndex = init := by
        rw [m3 st.hookIndex (by omega), getIdx_setIdx_self]
      have hlen1 : st.hookIndex < st'.hookStates.length := by
        have := setIdx_length st.hookStates st.hookIndex init
        omega
      have hti : getIdx t st.hookIndex = init := by
        rw [hag st.hookIndex (le_refl _) (by omega), hslot]
      have hrec := ih init st.hookIndex
        ⟨setIdx st.hookStates st.hookIndex init, st.hookIndex + 1⟩ a st' hrun t
        (fun j h1 h2 => hag j (le_trans (Nat.le_succ _) h1) h2) hlen
      by_cases hvu : init = JSVal.undef
      · -- the seeded value is itself `undefined`: the replay re-seeds,
        -- writing `undefined` over `undefined`
        subst hvu
        have hset : setIdx t st.hookIndex JSVal.undef = t :=
          setIdx_self t st.hookIndex JSVal.undef (by omega) hti
        have e2 : runHook (HookProg.state JSVal.undef k) ⟨t, st.hookIndex⟩ =
            runHook (k JSVal.undef st.hookIndex) ⟨t, st.hookIndex + 1⟩ := by
          simp [runHook,
            useState_of_undef JSVal.undef ⟨t, st.hookIndex⟩ (by simpa using hti), hset,
            getIdx_setIdx_self]
        rw [e2]
        exact hrec
      · have e2 : runHook (HookProg.state init k) ⟨t, st.hookIndex⟩ =
            runHook (k init st.hookIndex) ⟨t, st.hookIndex + 1⟩ := by
          have hs : getIdx t st.hookIndex ≠ JSVal.undef := by rw [hti]; exact hvu
          simp [runHook, useState_of_stored init ⟨t, st.hookIndex⟩ (by simpa using hs)]
          rw [hti]
        rw [e2]
        exact hrec
    · -- first pass read an existing value
      have e : runHook (HookProg.state init k) st =
          runHook (k (getIdx st.hookStates st.hookIndex) st.hookIndex)
            ⟨st.hookStates, st.hookIndex + 1⟩ := by
        simp [runHook, useState_of_stored init st h]
      rw [e] at hrun
      obtain ⟨m1, m2, m3⟩ := runHook_mono
        (k (getIdx st.hookStates st.hookIndex) st.hookIndex)
        ⟨st.hookStates, st.hookIndex + 1⟩
      rw [hrun] at m1 m2 m3
      simp only at m1 m2 m3
      have hslot : getIdx st'.hookStates st.hookIndex = getIdx st.hookStates st.hookIndex := by
        rw [m3 st.hookIndex (by omega)]
      have hti : getIdx t st.hookIndex = getIdx st.hookStates st.hookIndex := by
        rw [hag st.hookIndex (le_refl _) (by omega), hslot]
      have e2 : runHook (HookProg.state init k) ⟨t, st.hookIndex⟩ =
          runHook (k (getIdx st.hookStates st.hookIndex) st.hookIndex)
            ⟨t, st.hookIndex + 1⟩ := by
        have hs : getIdx t st.hookIndex ≠ JSVal.undef := by rw [hti]; exact h
        simp [runHook, useState_of_stored init ⟨t, st.hookIndex⟩ (by simpa using hs)]
        rw [hti]
      rw [e2]
      exact ih (getIdx st.hookStates st.hookIndex) st.hookIndex
        ⟨st.hookStates, st.hookIndex + 1⟩ a st' hrun t
        (fun j h1 h2 => hag j (le_trans (Nat.le_succ _) h1) h2) hlen

theorem mount_replay (dh : String → String → Bool) : ∀ fuel : Nat,
    (∀ c st r, mountChild dh fuel c st = some r →
      ∀ t : List JSVal,
        (∀ j, st.hookIndex ≤ j → j < r.2.hookIndex →
          getIdx t j = getIdx r.2.hookStates j) →
        r.2.hookStates.length ≤ t.length →
        mountChild dh fuel c ⟨t, st.hookIndex⟩ = some (r.1, ⟨t, r.2.hookIndex⟩)) ∧
    (∀ cs st r, mountList dh fuel cs st = some r →
      ∀ t : List JSVal,
        (∀ j, st.hookIndex ≤ j → j < r.2.hookIndex →
          getIdx t j = getIdx r.2.hookStates j) →
        r.2.hookStates.length ≤ t.length →
        mountList dh fuel cs ⟨t, st.hookIndex⟩ = some (r.1, ⟨t, r.2.hookIndex⟩)) := by
  intro fuel
  induction fuel with
  | zero => exact ⟨fun c st r h => by simp [mountChild] at h,
      fun cs st r h => by simp [mountList] at h⟩
  | succ fuel ih =>
    obtain ⟨ihc, ihl⟩ := ih
    constructor
    · intro c st r h t hag hlen
      match c with
      | Child.str s =>
        simp [mountChild] at h ⊢
        simp [← h]
      | Child.num n =>
        simp [mountChild] at h ⊢
        simp [← h]
      | Child.null => simp [mountChild] at h
      | Child.undef => simp [mountChild] at h
      | Child.bool b => simp [mountChild] at h
      | Child.arr cs =>
        simp only [mountChild] at h ⊢
        exact ihl cs st r h t hag hlen
      | Child.node (VNode.mk (NodeType.comp prog) props children) =>
        simp only [mountChild] at h ⊢
        cases hrh : runHook prog st with
        | mk c1 stA =>
          rw [hrh] at h
          simp only at h
          obtain ⟨p1, p2, p3⟩ := runHook_mono prog st
          rw [hrh] at p1 p2 p3
          simp only at p1 p2 p3
          obtain ⟨q1, q2, q3⟩ := (mount_mono dh fuel).1 _ _ _ h
          have hrh2 : runHook prog ⟨t, st.hookIndex⟩ = (c1, ⟨t, stA.hookIndex⟩) := by
            apply runHook_replay prog st c1 stA hrh t
            · intro j h1 h2
              rw [hag j h1 (by omega), q3 j h2]
            · omega
          rw [hrh2]
          simp only
          exact ihc _ _ _ h t (fun j h1 h2 => hag j (by omega) h2) hlen
      | Child.node (VNode.mk (NodeType.tag t0) props children) =>
        simp only [mountChild] at h ⊢
        cases hap : applyProps dh t0 props with
        | none => rw [hap] at h; simp at h
        | some acc =>
          rw [hap] at h
          simp only at h
          cases hml : mountList dh fuel children st with
          | none => rw [hml] at h; simp at h
          | some r' =>
            rw [hml] at h
            simp only at h
            cases r' with
            | mk ds st' =>
              obtain ⟨rfl⟩ :
                  r = ([Dom.elem t0 acc.attrs acc.propsSet acc.styles acc.listeners ds], st') := by
                simpa using h.symm
              have := ihl _ _ _ hml t (by simpa using hag) (by simpa using hlen)
              rw [this]
    · intro cs st r h t hag hlen
      match cs with
      | [] =>
        simp [mountList] at h ⊢
        simp [← h]
      | c :: cs =>
        simp only [mountList] at h ⊢
        cases hmc : mountChild dh fuel c st with
        | none => rw [hmc] at h; simp at h
        | some r1 =>
          rw [hmc] at h
          simp only at h
          cases r1 with
          | mk d st1 =>
            cases hml : mountList dh fuel cs st1 with
            | none => rw [hml] at h; simp at h
            | some r2 =>
              cases r2 with
              | mk ds st2 =>
                rw [hml] at h
                simp only at h
                obtain ⟨rfl⟩ : r = (d ++ ds, st2) := by simpa using h.symm
                simp only [Prod.snd, Prod.fst] at hag hlen ⊢
                obtain ⟨a1, a2, a3⟩ := (mount_mono dh fuel).1 _ _ _ hmc
                obtain ⟨b1, b2, b3⟩ := (mount_mono dh fuel).2 _ _ _ hml
                simp only [Prod.snd] at a1 a2 a3 b1 b2 b3
                have hmc2 : mountChild dh fuel c ⟨t, st.hookIndex⟩ =
                    some (d, ⟨t, st1.hookIndex⟩) := by
                  apply ihc _ _ _ hmc t
                  · intro j h1 h2
                    simp only [Prod.snd] at h2 ⊢
                    rw [hag j h1 (by omega), b3 j h2]
                  · simp only [Prod.snd]
                    omega
                have hml2 : mountList dh fuel cs ⟨t, st1.hookIndex⟩ =
                    some (ds, ⟨t, st2.hookIndex⟩) := by
                  have := ihl _ _ _ hml t (fun j h1 h2 => hag j (by omega) h2) hlen
                  simpa using this
                rw [hmc2]
                simp only
                rw [hml2]

mutual
theorem addChild_spec (acc : List Child) (c : Child) :
    addChild acc c = acc ++ specFlatten [c] := by
  match c with
  | Child.arr cs =>
    rw [show addChild acc (Child.arr cs) = addChildList acc cs from rfl,
      addChildList_spec acc cs]
    simp [specFlatten]
  | Child.str s => simp [addChild, removable, specFlatten]
  | Child.num n => simp [addChild, removable, specFlatten]
  | Child.null => simp [addChild, removable, specFlatten]
  | Child.undef => simp [addChild, removable, specFlatten]
  | Child.bool b => cases b <;> simp [addChild, removable, specFlatten]
  | Child.node vn => simp [addChild, removable, specFlatten]

theorem addChildList_spec (acc : List Child) (cs : List Child) :
    addChildList acc cs = acc ++ specFlatten cs := by
  match cs with
  | [] => simp [addChildList, specFlatten]
  | c :: rest =>
    rw [show addChildList acc (c :: rest) = addChildList (addChild acc c) rest from rfl,
      addChildList_spec (addChild acc c) rest, addChild_spec acc c]
    have : specFlatten (c :: rest) = specFlatten [c] ++ specFlatten rest := by
      match c with
      | Child.arr cs0 => simp [specFlatten]
      | Child.str s => by_cases h : removable (Child.str s) <;> simp [specFlatten, h]
      | Child.num n => by_cases h : removable (Child.num n) <;> simp [specFlatten, h]
      | Child.null => by_cases h : removable Child.null <;> simp [specFlatten, h]
      | Child.undef => by_cases h : removable Child.undef <;> simp [specFlatten, h]
      | Child.bool b => by_cases h : removable (Child.bool b) <;> simp [specFlatten, h]
      | Child.node vn => by_cases h : removable (Child.node vn) <;> simp [specFlatten, h]
    rw [this]
    simp
end

theorem mem_specFlatten (l : List Child) : ∀ c ∈ specFlatten l, flatEntry c = true := by
  induction l using specFlatten.induct with
  | case1 => simp [specFlatten]
  | case2 cs rest ih1 ih2 =>
    intro c hc
    simp [specFlatten] at hc
    rcases hc with h | h
    · exact ih1 c h
    · exact ih2 c h
  | case3 c0 rest hne h ih =>
    intro c hc
    cases c0 with
    | arr cs => exact (hne cs rfl).elim
    | str s => simp [specFlatten, h] at hc; exact ih c hc
    | num n => simp [specFlatten, h] at hc; exact ih c hc
    | null => simp [specFlatten, h] at hc; exact ih c hc
    | undef => simp [specFlatten, h] at hc; exact ih c hc
    | bool b => simp [specFlatten, h] at hc; exact ih c hc
    | node vn => simp [specFlatten, h] at hc; exact ih c hc
  | case4 c0 rest hne h ih =>
    intro c hc
    have hred : specFlatten (c0 :: rest) = c0 :: specFlatten rest := by
      cases c0 with
      | arr cs => exact (hne cs rfl).elim
      | str s => simp [specFlatten, h]
      | num n => simp [specFlatten, h]
      | null => simp [specFlatten, h]
      | undef => simp [specFlatten, h]
      | bool b => simp [specFlatten, h]
      | node vn => simp [specFlatten, h]
    rw [hred] at hc
    rcases List.mem_cons.mp hc with rfl | hmem
    · cases c with
      | arr cs => exact (hne cs rfl).elim
      | str s => simpa [flatEntry] using h
      | num n => simpa [flatEntry] using h
      | null => simpa [flatEntry] using h
      | undef => simpa [flatEntry] using h
      | bool b => simpa [flatEntry] using h
      | node vn => simpa [flatEntry] using h
    · exact ih c hmem

theorem specFlatten_flat (l : List Child) (hl : ∀ c ∈ l, flatEntry c = true) :
    specFlatten l = l := by
  induction l with
  | nil => simp [specFlatten]
  | cons c rest ih =>
    have hc := hl c (by simp)
    have hrest := ih fun c h => hl c (List.mem_cons_of_mem _ h)
    cases c with
    | arr cs => simp [flatEntry] at hc
    | str s => simp [specFlatten, removable, hrest]
    | num n => simp [specFlatten, removable, hrest]
    | null => simp [flatEntry, removable] at hc
    | undef => simp [flatEntry, removable] at hc
    | bool b =>
      cases b with
      | false => simp [flatEntry, removable] at hc
      | true => simp [specFlatten, removable, hrest]
    | node vn => simp [specFlatten, removable, hrest]

theorem specFlatten_idem (l : List Child) :
    specFlatten (specFlatten l) = specFlatten l :=
  specFlatten_flat _ (mem_specFlatten l)

/-- Claim C2 (amended): the first `useState` call addressing a slot
(stored value `undefined`, which includes the never-written case)
seeds the slot with the caller's initial argument and returns it; a
later call addressing a slot whose stored value is not `undefined`
returns that stored value, ignores its initial argument, and leaves
the store unchanged.  (As originally stated — "whatever that stored
value is" — the claim fails when the stored value is `undefined`; see
the counterexample.) -/
theorem useState_seed_and_read (init : JSVal) (st : HookSt) :
    (getIdx st.hookStates st.hookIndex = JSVal.undef →
      useState init st = (init, st.hookIndex,
        ⟨setIdx st.hookStates st.hookIndex init, st.hookIndex + 1⟩)) ∧
    (∀ v, getIdx st.hookStates st.hookIndex = v → v ≠ JSVal.undef →
      useState init st = (v, st.hookIndex, ⟨st.hookStates, st.hookIndex + 1⟩)) := by
  constructor
  · intro h
    exact useState_of_undef init st h
  · intro v hv hne
    rw [← hv]
    exact useState_of_stored init st (hv ▸ hne)

theorem useState_seed_and_read_witness :
    useState (JSVal.num 7) ⟨[], 0⟩ = (JSVal.num 7, 0, ⟨[JSVal.num 7], 1⟩) ∧
    useState (JSVal.num 9) ⟨[JSVal.num 3], 0⟩ = (JSVal.num 3, 0, ⟨[JSVal.num 3], 1⟩) :=
  ⟨(useState_seed_and_read (JSVal.num 7) ⟨[], 0⟩).1 (by decide),
   (useState_seed_and_read (JSVal.num 9) ⟨[JSVal.num 3], 0⟩).2 (JSVal.num 3)
     (by decide) (by decide)⟩

/-- Claim C2, counterexample to the claim as stated: slot 0 is seeded
by a first `useState(0)` call, a setter then stores the literal
`undefined` into it; the next render's `useState(5)` addressing the
same slot returns `5` — the initial argument — rather than the
previously stored value `undefined`: a stored `undefined` is re-seeded
rather than returned. -/
theorem useState_reseeds_undef_cx :
    getIdx (setStateRaw 0 (SetArg.literal JSVal.undef)
      (useState (JSVal.num 0) ⟨[], 0⟩).2.2.hookStates) 0 = JSVal.undef ∧
    (useState (JSVal.num 5)
      ⟨setStateRaw 0 (SetArg.literal JSVal.undef)
        (useState (JSVal.num 0) ⟨[], 0⟩).2.2.hookStates, 0⟩).1 = JSVal.num 5 ∧
    JSVal.num 5 ≠ JSVal.undef := by
  refine ⟨rfl, rfl, by decide⟩

/-- Claim C10: the setter returned by `useState` permanently targets
the slot index that was current when that `useState` call executed
(the closure captures `stateIndex = hookIndex`); applied to any later
store contents, it writes exactly that slot — a function argument
stores the result of applying it to that same slot's current value, a
literal argument is stored as is — and leaves every other slot
unchanged. -/
theorem setter_targets_captured_slot (init : JSVal) (st : HookSt) :
    (useState init st).2.1 = st.hookIndex ∧
    ∀ (states : List JSVal) (arg : SetArg) (idx : Nat),
      (getIdx (setStateRaw idx arg states) idx =
        match arg with
        | SetArg.literal v => v
        | SetArg.updater f => f (getIdx states idx)) ∧
      ∀ j, j ≠ idx → getIdx (setStateRaw idx arg states) j = getIdx states j := by
  refine ⟨rfl, ?_⟩
  intro states arg idx
  constructor
  · cases arg with
    | literal v => simp [setStateRaw, getIdx_setIdx_self]
    | updater f => simp [setStateRaw, getIdx_setIdx_self]
  · intro j hj
    cases arg with
    | literal v => exact getIdx_setIdx_ne _ _ _ _ hj
    | updater f => exact getIdx_setIdx_ne _ _ _ _ hj

theorem setter_targets_captured_slot_witness :
    (useState (JSVal.num 0) ⟨[], 2⟩).2.1 = 2 ∧
    getIdx (setStateRaw 1 (SetArg.updater jsInc) [JSVal.num 0, JSVal.num 4]) 1 =
      jsInc (getIdx [JSVal.num 0, JSVal.num 4] 1) ∧
    getIdx (setStateRaw 1 (SetArg.updater jsInc) [JSVal.num 0, JSVal.num 4]) 0 =
      getIdx [JSVal.num 0, JSVal.num 4] 0 :=
  ⟨(setter_targets_captured_slot (JSVal.num 0) ⟨[], 2⟩).1,
   ((setter_targets_captured_slot (JSVal.num 0) ⟨[], 2⟩).2
     [JSVal.num 0, JSVal.num 4] (SetArg.updater jsInc) 1).1,
   ((setter_targets_captured_slot (JSVal.num 0) ⟨[], 2⟩).2
     [JSVal.num 0, JSVal.num 4] (SetArg.updater jsInc) 1).2 0 (by decide)⟩

/-- Claim C9: with a falsy `props` argument (`null`, `undefined`,
`false`, `0`, `""`), `createElement` substitutes the empty object, so
the returned node's props field is the empty mapping and prop
application during mounting applies nothing. -/
theorem createElement_falsy_props (ty : NodeType) (pa : PropsArg) (cs : List Child)
    (h : pa.isObj = false) :
    (createElement ty pa cs).props = [] ∧
    ∀ (dh : String → String → Bool) (t : String),
      applyProps dh t (createElement ty pa cs).props = some emptyAcc := by
  have hp : propsOr pa = [] := by
    cases pa with
    | obj ps => simp [PropsArg.isObj] at h
    | null => rfl
    | undef => rfl
    | fls => rfl
    | zero => rfl
    | emptyStr => rfl
  have h1 : (createElement ty pa cs).props = [] := by
    simp [createElement, VNode.props, hp]
  exact ⟨h1, fun dh t => by rw [h1]; rfl⟩

theorem createElement_falsy_props_witness :
    (createElement (NodeType.tag "ul") PropsArg.null [Child.str "a"]).props = [] ∧
    applyProps dh0 "ul" (createElement (NodeType.tag "ul") PropsArg.null [Child.str "a"]).props
      = some emptyAcc :=
  ⟨(createElement_falsy_props (NodeType.tag "ul") PropsArg.null [Child.str "a"] (by decide)).1,
   (createElement_falsy_props (NodeType.tag "ul") PropsArg.null [Child.str "a"] (by decide)).2
     dh0 "ul"⟩

/-- Claim C8: when the persisted payload is malformed — the parse (or
the shape-dependent processing folded into it) raises — `loadEntries`
returns the empty list and `loadPlan` returns `null`; the fault is
absorbed inside the loader and nothing propagates (both loaders are
total functions into plain values). -/
theorem load_fault_absorbed (s1 s2 : String)
    (parseEntries : String → Except Unit (List Entry)) (dateVal : String → Int)
    (parsePlan : String → Except Unit Plan)
    (h1 : parseEntries s1 = Except.error ()) (h2 : parsePlan s2 = Except.error ()) :
    loadEntries (some s1) parseEntries dateVal = [] ∧
    loadPlan (some s2) parsePlan = none := by
  simp [loadEntries, loadPlan, h1, h2]

theorem load_fault_absorbed_witness :
    loadEntries (some "not json") (fun _ => Except.error ()) (fun _ => 0) = [] ∧
    loadPlan (some "not json either") (fun _ => Except.error ()) = none :=
  load_fault_absorbed "not json" "not json either"
    (fun _ => Except.error ()) (fun _ => 0) (fun _ => Except.error ()) rfl rfl

/-- Claim C4: mounting a host node with props
`{className: "x", style: {color: "red"}, onClick: fn, disabled: undefined}`
produces an element whose `class` attribute is `"x"`, whose inline
style holds `color: red`, with `fn` registered for the `"click"` event
(the prop name after `on`, lower-cased), and with no `disabled`
attribute, property, style or listener at all — the `undefined` value
is skipped before any write. -/
theorem mount_prop_application (dh : String → String → Bool) (tg : String) (f : Nat)
    (fuel : Nat) (st : HookSt) :
    mountChild dh (fuel + 2) (Child.node (VNode.mk (NodeType.tag tg) (c4props f) [])) st =
      some ([Dom.elem tg [("class", "x")] [] [("color", "red")] [("click", f)] []], st) := by
  have hap : applyProps dh tg (c4props f) =
      some ⟨[("class", "x")], [], [("color", "red")], [("click", f)]⟩ := by
    have hsw : strStartsWith "onClick" "on" = true := by decide
    have hdl : strToLower (strDrop "onClick" 2) = "click" := by decide
    simp [applyProps, applyPropsFrom, applyProp, c4props, emptyAcc, isFunctionVal,
      isObjectVal, propToString, hsw, hdl]
  simp only [mountChild, mountList, hap]

/-- Claim C3: the children of a node built by `createElement` are the
depth-first, order-preserving flattening of the child arguments with
every null/false/undefined entry removed (the spec-side `specFlatten`),
and mounting that node is indistinguishable from mounting the node
built from the manually pre-flattened child list. -/
theorem createElement_flattens (ty : NodeType) (pa : PropsArg) (children : List Child) :
    (createElement ty pa children).children = specFlatten children ∧
    ∀ (dh : String → String → Bool) (fuel : Nat) (st : HookSt),
      mountChild dh fuel (Child.node (createElement ty pa children)) st =
        mountChild dh fuel (Child.node (createElement ty pa (specFlatten children))) st := by
  have h1 : (createElement ty pa children).children = specFlatten children := by
    simp [createElement, VNode.children, addChildList_spec]
  refine ⟨h1, ?_⟩
  intro dh fuel st
  have h2 : createElement ty pa (specFlatten children) = createElement ty pa children := by
    simp only [createElement]
    rw [addChildList_spec, addChildList_spec, specFlatten_idem]
  rw [h2]

/-- Claim C7: `render` discards whatever the container previously
held — the result does not depend on the container's prior children —
and the container afterwards holds exactly the fresh materialization
of the element (no patching or reuse of existing host nodes). -/
theorem render_discards_container (dh : String → String → Bool) (fuel : Nat)
    (el : Child) (w : World) :
    (∀ d0 : List Dom,
      render dh fuel el ⟨w.hookStates, w.hookIndex, w.root, d0⟩ = render dh fuel el w) ∧
    render dh fuel el w =
      (mountChild dh fuel el ⟨w.hookStates, 0⟩).map
        (fun r => ⟨r.2.hookStates, r.2.hookIndex, some el, r.1⟩) := by
  constructor
  · intro d0; rfl
  · cases hmc : mountChild dh fuel el ⟨w.hookStates, 0⟩ with
    | none => simp [render, hmc]
    | some r => cases r with
      | mk d st => simp [render, hmc]

/-- Claim C5 (amended): every `render` call resets the shared hook
index to zero — the incoming index value is irrelevant to the result —
and leaves every slot holding a value other than `undefined` unchanged,
so the render's hook calls addressing such a slot read back exactly the
stored value; this is how state survives re-render.  (As originally
stated — every already-stored slot value unchanged — the claim fails
for a slot in which a setter stored `undefined`: the next render's
hook call re-seeds it with the hook's initial argument; see the
counterexample.) -/
theorem render_resets_index_not_values (dh : String → String → Bool) (fuel : Nat)
    (el : Child) (w : World) :
    (∀ j : Nat,
      render dh fuel el ⟨w.hookStates, j, w.root, w.containerDom⟩ = render dh fuel el w) ∧
    (∀ w', render dh fuel el w = some w' →
      ∀ i, getIdx w.hookStates i ≠ JSVal.undef →
        getIdx w'.hookStates i = getIdx w.hookStates i) := by
  constructor
  · intro j; rfl
  · intro w' h i hi
    unfold render at h
    cases hmc : mountChild dh fuel el ⟨w.hookStates, 0⟩ with
    | none => rw [hmc] at h; simp at h
    | some r =>
      cases r with
      | mk d st =>
        rw [hmc] at h
        simp only [Option.some.injEq] at h
        have hp := (mount_pres dh fuel).1 _ _ _ hmc i hi
        simp only [Prod.snd] at hp
        rw [← h]
        exact hp

theorem render_resets_index_not_values_witness :
    render dh0 4 (counterNode buttonBody)
      ⟨(counterWorld buttonBody buttonDom 0).hookStates, 7,
        (counterWorld buttonBody buttonDom 0).root,
        (counterWorld buttonBody buttonDom 0).containerDom⟩ =
      render dh0 4 (counterNode buttonBody) (counterWorld buttonBody buttonDom 0) ∧
    getIdx (counterWorld buttonBody buttonDom 0).hookStates 0 =
      getIdx (counterWorld buttonBody buttonDom 0).hookStates 0 :=
  ⟨(render_resets_index_not_values dh0 4 (counterNode buttonBody)
      (counterWorld buttonBody buttonDom 0)).1 7,
   (render_resets_index_not_values dh0 4 (counterNode buttonBody)
      (counterWorld buttonBody buttonDom 0)).2
      (counterWorld buttonBody buttonDom 0) rfl 0 (by decide)⟩

/-- Claim C5, counterexample to the claim as stated: after a setter
stores the literal `undefined` into slot 0, the synchronously
triggered `render` call does not leave that stored value unchanged —
the re-rendered counter's `useState(0)` re-seeds the slot, which ends
up holding `0`, not the stored `undefined`. -/
theorem render_overwrites_undef_slot_cx :
    setStateRaw 0 (SetArg.literal JSVal.undef)
      (counterWorld buttonBody buttonDom 0).hookStates = [JSVal.undef] ∧
    render dh0 4 (counterNode buttonBody)
      ⟨[JSVal.undef], 0, some (counterNode buttonBody), buttonDom (JSVal.num 0)⟩ =
      some (counterWorld buttonBody buttonDom 0) ∧
    getIdx (counterWorld buttonBody buttonDom 0).hookStates 0 ≠ getIdx [JSVal.undef] 0 :=
  ⟨rfl, rfl, by decide⟩

/-- Claim C6: rendering the same virtual tree twice in succession with
no intervening state change leaves the container holding exactly the
host tree a single call leaves (components interact with the store
only through the state hook and are deterministic in the values read,
so the second pass reads back the values the first pass stored). -/
theorem render_idempotent (dh : String → String → Bool) (fuel : Nat) (el : Child)
    (w w1 w2 : World)
    (h1 : render dh fuel el w = some w1) (h2 : render dh fuel el w1 = some w2) :
    w2.containerDom = w1.containerDom := by
  unfold render at h1 h2
  cases hmc : mountChild dh fuel el ⟨w.hookStates, 0⟩ with
  | none => rw [hmc] at h1; simp at h1
  | some r =>
    cases r with
    | mk d st =>
      rw [hmc] at h1
      simp only [Option.some.injEq] at h1
      have hrep := (mount_replay dh fuel).1 _ _ _ hmc st.hookStates
        (fun j h1 h2 => rfl) (le_refl _)
      simp only [Prod.snd, Prod.fst] at hrep
      rw [← h1] at h2
      simp only at h2
      rw [hrep] at h2
      simp only [Option.some.injEq] at h2
      rw [← h2, ← h1]

theorem render_idempotent_witness :
    render dh0 4 (counterNode buttonBody) ⟨[], 0, none, []⟩ =
      some (counterWorld buttonBody buttonDom 0) ∧
    render dh0 4 (counterNode buttonBody) (counterWorld buttonBody buttonDom 0) =
      some (counterWorld buttonBody buttonDom 0) ∧
    (counterWorld buttonBody buttonDom 0).containerDom =
      (counterWorld buttonBody buttonDom 0).containerDom :=
  ⟨rfl, rfl,
   render_idempotent dh0 4 (counterNode buttonBody) ⟨[], 0, none, []⟩
     (counterWorld buttonBody buttonDom 0) (counterWorld buttonBody buttonDom 0) rfl rfl⟩

theorem counterTraceList_eq (bodyDom : JSVal → List Dom) :
    ∀ (K : Nat) (n : Int), counterTraceList bodyDom n K =
      (List.range K).map fun i : Nat => bodyDom (JSVal.num (n + 1 + (i : Int))) := by
  intro K
  induction K with
  | zero => intro n; rfl
  | succ K ih =>
    intro n
    rw [List.range_succ_eq_map, List.map_cons, List.map_map]
    show bodyDom (JSVal.num (n + 1)) :: counterTraceList bodyDom (n + 1) K = _
    rw [ih (n + 1)]
    refine congrArg₂ List.cons (by norm_num) ?_
    refine List.map_congr_left fun a _ => ?_
    show bodyDom (JSVal.num (n + 1 + 1 + (a : Int))) =
      bodyDom (JSVal.num (n + 1 + ((Nat.succ a : Nat) : Int)))
    refine congrArg bodyDom (congrArg JSVal.num ?_)
    push_cast
    ring

theorem counter_mount (dh : String → String → Bool) (body : JSVal → Child)
    (bodyDom : JSVal → List Dom) (F : Nat)
    (hb : ∀ v s, mountChild dh F (body v) s = some (bodyDom v, s)) (m : Int) :
    mountChild dh (F + 1) (counterNode body) ⟨[JSVal.num m], 0⟩ =
      some (bodyDom (JSVal.num m), ⟨[JSVal.num m], 1⟩) := by
  have hrun : runHook (counterProg body) ⟨[JSVal.num m], 0⟩ =
      (body (JSVal.num m), ⟨[JSVal.num m], 1⟩) := by
    have hst : getIdx [JSVal.num m] 0 ≠ JSVal.undef := by simp [getIdx]
    simp [counterProg, runHook, useState_of_stored (JSVal.num 0) ⟨[JSVal.num m], 0⟩ hst,
      getIdx]
  simp only [counterNode, mountChild, hrun]
  exact hb _ _

theorem counter_step (dh : String → String → Bool) (body : JSVal → Child)
    (bodyDom : JSVal → List Dom) (F : Nat)
    (hb : ∀ v s, mountChild dh F (body v) s = some (bodyDom v, s)) (n : Int) :
    setStateW dh (F + 1) 0 (SetArg.updater jsInc) (counterWorld body bodyDom n) =
      some (counterWorld body bodyDom (n + 1)) := by
  have hs : setStateRaw 0 (SetArg.updater jsInc) [JSVal.num n] = [JSVal.num (n + 1)] := by
    simp [setStateRaw, setIdx, getIdx, jsInc]
  simp only [setStateW, counterWorld, hs]
  simp only [render, counter_mount dh body bodyDom F hb (n + 1)]

theorem counter_trace (dh : String → String → Bool) (body : JSVal → Child)
    (bodyDom : JSVal → List Dom) (F : Nat)
    (hb : ∀ v s, mountChild dh F (body v) s = some (bodyDom v, s)) :
    ∀ (K : Nat) (n : Int),
      clickTrace dh (F + 1) 0 (SetArg.updater jsInc) K (counterWorld body bodyDom n) =
        some (counterTraceList bodyDom n K, counterWorld body bodyDom (n + K)) := by
  intro K
  induction K with
  | zero => intro n; simp [clickTrace, counterTraceList]
  | succ K ih =>
    intro n
    rw [show (K + 1 : Nat) = K.succ from rfl]
    simp only [clickTrace, counter_step dh body bodyDom F hb n, ih (n + 1)]
    refine congrArg some (Prod.ext ?_ ?_)
    · show (counterWorld body bodyDom (n + 1)).containerDom ::
        counterTraceList bodyDom (n + 1) K = counterTraceList bodyDom n (K + 1)
      rfl
    · show counterWorld body bodyDom (n + 1 + K) = counterWorld body bodyDom (n + (K + 1))
      refine congrArg (counterWorld body bodyDom) ?_
      ring

/-- Claim C1: for every component calling the state hook exactly once
with initial `0` and rendering a hook-free body of the value (the body
mounts at fuel `F` without touching the hook state), the initial
render shows the body of `0`, and `K` sequential invocations of the
slot-0 setter with the updater `prev => prev + 1` — each re-render
completing before the next call — each trigger their own full
re-render: the trace of container contents after the `K` calls is
exactly the bodies of `1, 2, ..., K` (`K` entries, one per call — no
two calls coalesce), and slot 0 finally stores `K`. -/
theorem counter_clicks (dh : String → String → Bool) (body : JSVal → Child)
    (bodyDom : JSVal → List Dom) (F : Nat)
    (hb : ∀ v s, mountChild dh F (body v) s = some (bodyDom v, s)) (K : Nat) :
    render dh (F + 1) (counterNode body) ⟨[], 0, none, []⟩ =
      some (counterWorld body bodyDom 0) ∧
    clickTrace dh (F + 1) 0 (SetArg.updater jsInc) K (counterWorld body bodyDom 0) =
      some ((List.range K).map fun i : Nat => bodyDom (JSVal.num ((i : Int) + 1)),
        counterWorld body bodyDom K) ∧
    getIdx (counterWorld body bodyDom K).hookStates 0 = JSVal.num K := by
  refine ⟨?_, ?_, rfl⟩
  · have hrun : runHook (counterProg body) ⟨[], 0⟩ =
        (body (JSVal.num 0), ⟨[JSVal.num 0], 1⟩) := by
      simp [counterProg, runHook, useState_of_undef (JSVal.num 0) ⟨[], 0⟩ (by simp [getIdx]),
        setIdx, getIdx_setIdx_self]
    have hm0 : mountChild dh (F + 1) (counterNode body) ⟨[], 0⟩ =
        some (bodyDom (JSVal.num 0), ⟨[JSVal.num 0], 1⟩) := by
      simp only [counterNode, mountChild, hrun]
      exact hb _ _
    simp [render, hm0, counterWorld]
  · rw [counter_trace dh body bodyDom F hb K 0]
    refine congrArg some (Prod.ext ?_ ?_)
    · show counterTraceList bodyDom 0 K = _
      rw [counterTraceList_eq]
      refine List.map_congr_left fun a _ => ?_
      refine congrArg bodyDom (congrArg JSVal.num ?_)
      ring
    · show counterWorld body bodyDom (0 + K) = counterWorld body bodyDom K
      refine congrArg (counterWorld body bodyDom) ?_
      ring

theorem counter_clicks_witness :
    render dh0 4 (counterNode buttonBody) ⟨[], 0, none, []⟩ =
      some (counterWorld buttonBody buttonDom 0) ∧
    clickTrace dh0 4 0 (SetArg.updater jsInc) 3 (counterWorld buttonBody buttonDom 0) =
      some ((List.range 3).map fun i : Nat => buttonDom (JSVal.num ((i : Int) + 1)),
        counterWorld buttonBody buttonDom 3) ∧
    getIdx (counterWorld buttonBody buttonDom 3).hookStates 0 = JSVal.num 3 :=
  counter_clicks dh0 buttonBody buttonDom 3 (fun _ _ => rfl) 3
